import Mathlib

/-!
Shallow embedding of the wallet registry Service (Go package `wallet`,
file `src/unnamed/part_000`).  The registry's own logic — duplicate
detection, the deduplication pass, rollback on persistence failure, the
encryption workflow's control flow, the error values of each operation —
is translated directly from that source.  The `Wallet` data type and the
external collaborators (the wallet constructor, deterministic address
generation, the symmetric encryption primitive, the persistence gateway,
the balance lookup and the transaction builder) are not part of the
source; following the specification they are modelled as explicit
function parameters, and every wallet value handled by an operation is
an independent value (the spec's "private clone" isolation).
-/

/-- Address entry of a wallet: address, public key, plaintext secret key
(zero value when encrypted) and the encrypted secret key blob. -/
structure Entry where
  address : String
  publicKey : String
  secret : String
  encryptedSeckey : String
deriving DecidableEq

/-- Zero value of a plaintext secret key (`cipher.SecKey zero value`). -/
def zeroSecKey : String := ""

/-- Wallet: identifier (persisted filename), label, schema version tag,
seed and last-seed checkpoint (plaintext or encrypted blobs), encrypted
flag and the ordered entry list (index 0 is the first address). -/
structure Wallet where
  filename : String
  label : String
  version : String
  seed : String
  lastSeed : String
  encrypted : Bool
  entries : List Entry
deriving DecidableEq

/-- Current schema version tag.  Modelled from the spec: the legacy
pre-encryption format is tagged "0.1"; the current tag is "0.2". -/
def Version : String := "0.2"

/-- In-memory wallet collection, keyed by wallet id.  The Go `Wallets`
map is modelled as an association list so that the processing order of
the deduplication pass is explicit. -/
abbrev Wallets := List (String × Wallet)

/-- First-address index: mapping from a wallet's first derived address
to its wallet id. -/
abbrev AddrIndex := List (String × String)

/-- Deterministic key derivation step, modelled from the spec: from a
last-seed checkpoint produce the next checkpoint and the derived entry. -/
abbrev KeyGen := String → String × Entry

/-- Balance lookup collaborator: batched, order preserving; returns the
balances of the queried addresses or an error. -/
abbrev BalanceG := List String → Except String (List Nat)

/-- Persistence gateway: saving a wallet either fully succeeds or
fails with an error. -/
abbrev SaveG := Wallet → Except String Unit

/-- Symmetric encryption primitive: plaintext and password to a
ciphertext blob, or an error. -/
abbrev EncryptG := String → String → Except String String

/-- Options passed to wallet creation: label and seed. -/
structure Options where
  label : String
  seed : String
deriving DecidableEq

/-- Typed error values of the registry.  The source has both a bare
`ErrWalletNotExist` error value (no wallet id) and an
`ErrWalletNotExist` struct embedding the requested id; they are distinct
constructors here.  Collaborator errors are propagated via `external`. -/
inductive WalletError where
  | notExistVar : WalletError
  | notExistWithId : String → WalletError
  | apiDisabled : WalletError
  | duplicateWallet : String → WalletError
  | external : String → WalletError
deriving DecidableEq

/-- The wallet registry state: wallet collection, first-address index,
the immutable api-disabled flag and the persistence directory. -/
structure Service where
  wallets : Wallets
  firstAddrIDMap : AddrIndex
  disableWalletAPI : Bool
  walletDirectory : String
deriving DecidableEq

/-- Lookup in the wallet collection (Go map indexing). -/
def Wallets.get : Wallets → String → Option Wallet
  | [], _ => none
  | (k, w) :: rest, id => if k = id then some w else Wallets.get rest id

/-- Insertion of a new wallet, keyed by its id; fails when a wallet with
that id already exists.  Modelled from the spec: "insert into wallets". -/
def Wallets.add (ws : Wallets) (w : Wallet) : Except WalletError Wallets :=
  match Wallets.get ws w.filename with
  | some _ => Except.error (WalletError.external "wallet already exists")
  | none => Except.ok (ws ++ [(w.filename, w)])

/-- Deletion by wallet id (Go map delete). -/
def Wallets.removeW : Wallets → String → Wallets
  | [], _ => []
  | (k, w) :: rest, id =>
    if k = id then Wallets.removeW rest id else (k, w) :: Wallets.removeW rest id

/-- Replacement keyed by an explicit id (Go map assignment). -/
def Wallets.setK : Wallets → String → Wallet → Wallets
  | [], id, w => [(id, w)]
  | (k, v) :: rest, id, w =>
    if k = id then (id, w) :: rest else (k, v) :: Wallets.setK rest id w

/-- Replacement of a stored wallet under its own id (`wallets.set`). -/
def Wallets.set (ws : Wallets) (w : Wallet) : Wallets :=
  Wallets.setK ws w.filename w

/-- Index lookup (Go map indexing on the first-address index). -/
def aget : AddrIndex → String → Option String
  | [], _ => none
  | (k, v) :: rest, a => if k = a then some v else aget rest a

/-- Index assignment (Go map assignment on the first-address index). -/
def aset : AddrIndex → String → String → AddrIndex
  | [], a, v => [(a, v)]
  | (k, w) :: rest, a, v =>
    if k = a then (a, v) :: rest else (k, w) :: aset rest a v

/-- Keys of a wallet collection are pairwise distinct (Go map). -/
abbrev keysNodup (ws : Wallets) : Prop := (ws.map Prod.fst).Nodup

/-- Entry count of the wallet stored under an id; 0 when absent (the Go
zero `Wallet` returned by a failed map lookup has no entries). -/
def wcountOf (ws : Wallets) (id : String) : Nat :=
  match Wallets.get ws id with
  | none => 0
  | some w => w.entries.length

/-- First-entry address of a wallet (`w.Entries[0].Address.String()`);
empty for a wallet without entries. -/
def firstAddr (w : Wallet) : String :=
  match w.entries with
  | [] => ""
  | e :: _ => e.address

/-- Whether an `Except` value is an error. -/
def isErr : Except ε α → Bool
  | Except.error _ => true
  | Except.ok _ => false

deriving instance DecidableEq for Except

/-- Stepwise key derivation, modelled from the spec: derive `n` entries
starting from a last-seed checkpoint, recording each intermediate
checkpoint. -/
def genEntries (gen : KeyGen) : Nat → String → List (String × Entry)
  | 0, _ => []
  | n + 1, s =>
    let p := gen s
    p :: genEntries gen n p.1

/-- Checkpoint reached after a derivation run (the initial checkpoint
when nothing was derived). -/
def lastSeedAfter (s : String) (cs : List (String × Entry)) : String :=
  (cs.getLast?).elim s Prod.fst

/-- Wallet address generation, modelled from the spec: append `n` newly
derived entries and advance the last-seed checkpoint; returns the new
wallet and the newly generated addresses only. -/
def generateAddresses (gen : KeyGen) (w : Wallet) (n : Nat) : Wallet × List String :=
  ({ w with entries := w.entries ++ (genEntries gen n w.lastSeed).map Prod.snd,
            lastSeed := lastSeedAfter w.lastSeed (genEntries gen n w.lastSeed) },
   (genEntries gen n w.lastSeed).map (fun c => c.2.address))

/-- Wallet constructor, modelled from the spec: build a wallet from a
name and options (label, seed); the last-seed checkpoint starts at the
seed and the entry list is empty. -/
def newWallet (wltName : String) (o : Options) : Wallet :=
  { filename := wltName, label := o.label, version := Version,
    seed := o.seed, lastSeed := o.seed, encrypted := false, entries := [] }

/-- Per-entry secret encryption loop of the encryption workflow: each
entry's plaintext secret is encrypted individually and the plaintext
field zeroed; the first primitive failure aborts the whole run. -/
def encryptEntries (enc : EncryptG) (password : String) : List Entry → Except String (List Entry)
  | [] => Except.ok []
  | e :: rest =>
    match enc e.secret password with
    | Except.error m => Except.error m
    | Except.ok sk =>
      match encryptEntries enc password rest with
      | Except.error m => Except.error m
      | Except.ok rest2 =>
        Except.ok ({ e with encryptedSeckey := sk, secret := zeroSecKey } :: rest2)

/-- Highest index of a strictly positive balance in a balance list. -/
def lastPositiveIdx : List Nat → Option Nat
  | [] => none
  | b :: rest =>
    match lastPositiveIdx rest with
    | some i => some (i + 1)
    | none => if 0 < b then some 0 else none

/-- Scan-ahead protocol on one wallet, modelled from the spec: derive up
to `n` candidate entries beyond the current ones, query their balances
in one batch, keep candidates up to and including the highest-indexed
one with a strictly positive balance (none when no candidate has one),
and advance the last-seed checkpoint to the retained entry count. -/
def scanAddresses (gen : KeyGen) (bg : BalanceG) (w : Wallet) (n : Nat) : Except WalletError Wallet :=
  match bg ((genEntries gen n w.lastSeed).map (fun c => c.2.address)) with
  | Except.error m => Except.error (WalletError.external m)
  | Except.ok bs =>
    match lastPositiveIdx bs with
    | none => Except.ok w
    | some k =>
      Except.ok
        { w with
          entries := w.entries ++ ((genEntries gen n w.lastSeed).take (k + 1)).map Prod.snd,
          lastSeed := lastSeedAfter w.lastSeed ((genEntries gen n w.lastSeed).take (k + 1)) }

/-- Closure-style update of a stored wallet, modelled from the spec:
`update_label` "fails with NotFound if absent", otherwise the mutated
wallet replaces the stored one and is also handed back. -/
def Wallets.update (ws : Wallets) (wltID : String) (f : Wallet → Wallet) : Except WalletError (Wallets × Wallet) :=
  match Wallets.get ws wltID with
  | none => Except.error WalletError.notExistVar
  | some w =>
    let w2 := f w
    Except.ok (Wallets.setK ws wltID w2, w2)

/-- Registry constructed with the disabled flag set (`NewService` early
return: empty collection, fresh index, no directory). -/
def newServiceDisabled : Service :=
  { wallets := [], firstAddrIDMap := [], disableWalletAPI := true, walletDirectory := "" }

/-- Name used by `CreateWallet`: the given name, or the output of the
unique-filename generator when empty (`generateUniqueWalletFilename`
abstracted as a function of the current collection). -/
def resolveName (freshName : Wallets → String) (serv : Service) (wltName : String) : String :=
  if wltName = "" then freshName serv.wallets else wltName

/-- Wallet built by `loadWallet` before the duplicate check: the
constructor's output with exactly one generated address. -/
def builtWallet (gen : KeyGen) (wltName : String) (o : Options) : Wallet :=
  (generateAddresses gen (newWallet wltName o) 1).1

/-- Insert-and-persist tail of `Service.loadWallet` (lines 139-151 of
the source): insert the wallet into the collection, persist it —
removing the just-inserted wallet again when persistence fails — and on
success record its first address in the index. -/
def insertAndSave (save : SaveG) (serv : Service) (w2 : Wallet) :
    Except WalletError Wallet × Service :=
  match Wallets.add serv.wallets w2 with
  | Except.error e => (Except.error e, serv)
  | Except.ok ws2 =>
    match save w2 with
    | Except.error m =>
      (Except.error (WalletError.external m),
       { serv with wallets := Wallets.removeW ws2 w2.filename })
    | Except.ok _ =>
      (Except.ok w2,
       { serv with wallets := ws2,
                   firstAddrIDMap := aset serv.firstAddrIDMap (firstAddr w2) w2.filename })

/-- Translation of `Service.loadWallet`: build the wallet, generate one
address, reject a duplicate first address, optionally scan ahead, then
insert and persist with rollback. -/
def loadWallet (gen : KeyGen) (save : SaveG) (bgOpt : Option BalanceG)
    (serv : Service) (wltName : String) (o : Options) (scanN : Nat) :
    Except WalletError Wallet × Service :=
  match aget serv.firstAddrIDMap (firstAddr (builtWallet gen wltName o)) with
  | some id => (Except.error (WalletError.duplicateWallet id), serv)
  | none =>
    match (if 1 < scanN then
             match bgOpt with
             | some bg => scanAddresses gen bg (builtWallet gen wltName o) (scanN - 1)
             | none => Except.ok (builtWallet gen wltName o)
           else Except.ok (builtWallet gen wltName o)) with
    | Except.error e => (Except.error e, serv)
    | Except.ok w2 => insertAndSave save serv w2

/-- Translation of `Service.CreateWallet`: reject when the api is
disabled, resolve an empty name to a fresh one, then `loadWallet` with
no scanning. -/
def serviceCreateWallet (gen : KeyGen) (save : SaveG) (freshName : Wallets → String)
    (serv : Service) (wltName : String) (o : Options) :
    Except WalletError Wallet × Service :=
  if serv.disableWalletAPI then (Except.error WalletError.apiDisabled, serv)
  else loadWallet gen save none serv (resolveName freshName serv wltName) o 0

/-- Translation of `Service.getWallet`: lookup returning the bare
no-id NotFound error value when the id is absent. -/
def getWalletI (serv : Service) (wltID : String) : Except WalletError Wallet :=
  match Wallets.get serv.wallets wltID with
  | none => Except.error WalletError.notExistVar
  | some w => Except.ok w

/-- Translation of `Service.GetWallet` (read lock plus `getWallet`). -/
def serviceGetWallet (serv : Service) (wltID : String) : Except WalletError Wallet :=
  getWalletI serv wltID

/-- Persist-replace tail of `Service.ScanAheadWalletAddresses` on the
scanned wallet: persist (the source passes only the directory to
`Save`; the scanned wallet is the value being persisted), then replace
the stored wallet and return the scanned wallet. -/
def scanSaveStep (save : SaveG) (serv : Service) (w2 : Wallet) :
    Except WalletError Wallet × Service :=
  match save w2 with
  | Except.error m => (Except.error (WalletError.external m), serv)
  | Except.ok _ => (Except.ok w2, { serv with wallets := Wallets.set serv.wallets w2 })

/-- Scan step of `Service.ScanAheadWalletAddresses` on the looked-up
wallet: scan, then persist and replace. -/
def scanAheadFound (gen : KeyGen) (bg : BalanceG) (save : SaveG)
    (serv : Service) (w : Wallet) (scanN : Nat) :
    Except WalletError Wallet × Service :=
  match scanAddresses gen bg w scanN with
  | Except.error e => (Except.error e, serv)
  | Except.ok w2 => scanSaveStep save serv w2

/-- Translation of `Service.ScanAheadWalletAddresses`: internal lookup
(bare NotFound when absent), then scan, persist and replace. -/
def serviceScanAhead (gen : KeyGen) (bg : BalanceG) (save : SaveG)
    (serv : Service) (wltID : String) (scanN : Nat) :
    Except WalletError Wallet × Service :=
  match getWalletI serv wltID with
  | Except.error e => (Except.error e, serv)
  | Except.ok w => scanAheadFound gen bg save serv w scanN

/-- Encryption workflow body of `Service.Encrypt` on the looked-up
wallet: bump the version, encrypt seed, last seed and every entry secret
in order (first primitive failure aborts), persist the encrypted wallet,
delete the legacy backup when the previous version was "0.1" (outcome
`rmBak`), and return the encrypted wallet. -/
def encryptWallet (enc : EncryptG) (save : SaveG) (rmBak : Except String Unit)
    (password : String) (w : Wallet) : Except WalletError Wallet :=
  match enc w.seed password with
  | Except.error e => Except.error (WalletError.external e)
  | Except.ok sseed =>
    match enc w.lastSeed password with
    | Except.error e => Except.error (WalletError.external e)
    | Except.ok lsseed =>
      match encryptEntries enc password w.entries with
      | Except.error e => Except.error (WalletError.external e)
      | Except.ok es =>
        match save { w with version := Version, seed := sseed, lastSeed := lsseed,
                            entries := es } with
        | Except.error e => Except.error (WalletError.external e)
        | Except.ok _ =>
          match (if w.version = "0.1" then rmBak else Except.ok ()) with
          | Except.error e => Except.error (WalletError.external e)
          | Except.ok _ =>
            Except.ok { w with version := Version, seed := sseed, lastSeed := lsseed,
                               entries := es }

/-- Translation of `Service.Encrypt`: look up the wallet (id-carrying
NotFound when absent) and run the encryption workflow on the looked-up
value.  The source never writes the encrypted wallet back into the
collection, so the registry state is returned unchanged on every path. -/
def serviceEncrypt (enc : EncryptG) (save : SaveG) (rmBak : Except String Unit)
    (serv : Service) (wltID password : String) :
    Except WalletError Wallet × Service :=
  match Wallets.get serv.wallets wltID with
  | none => (Except.error (WalletError.notExistWithId wltID), serv)
  | some w => (encryptWallet enc save rmBak password w, serv)

/-- Translation of `Service.NewAddresses`: look up the wallet
(id-carrying NotFound when absent), generate `num` addresses on the
looked-up value, persist it, and return the new addresses only.  The
source never writes the extended wallet back into the collection. -/
def newAddressesFound (gen : KeyGen) (save : SaveG)
    (serv : Service) (num : Nat) (w : Wallet) :
    Except WalletError (List String) × Service :=
  match save (generateAddresses gen w num).1 with
  | Except.error m => (Except.error (WalletError.external m), serv)
  | Except.ok _ => (Except.ok (generateAddresses gen w num).2, serv)

/-- Lookup step of `Service.NewAddresses`: id-carrying NotFound when
absent, otherwise generate, persist and return the new addresses. -/
def serviceNewAddresses (gen : KeyGen) (save : SaveG)
    (serv : Service) (wltID : String) (num : Nat) :
    Except WalletError (List String) × Service :=
  match Wallets.get serv.wallets wltID with
  | none => (Except.error (WalletError.notExistWithId wltID), serv)
  | some w => newAddressesFound gen save serv num w

/-- Translation of `Service.GetAddresses`: all addresses of the stored
wallet in entry order; id-carrying NotFound when absent. -/
def serviceGetAddresses (serv : Service) (wltID : String) :
    Except WalletError (List String) :=
  match Wallets.get serv.wallets wltID with
  | none => Except.error (WalletError.notExistWithId wltID)
  | some w => Except.ok (w.entries.map Entry.address)

/-- Translation of `Service.CreateAndSignTransaction`: read-only lookup
(id-carrying NotFound when absent) and full delegation to the wallet's
transaction builder, modelled as an opaque-result collaborator. -/
def serviceCreateAndSignTransaction (txb : Wallet → Except String String)
    (serv : Service) (wltID : String) : Except WalletError String :=
  match Wallets.get serv.wallets wltID with
  | none => Except.error (WalletError.notExistWithId wltID)
  | some w =>
    match txb w with
    | Except.error m => Except.error (WalletError.external m)
    | Except.ok t => Except.ok t

/-- Translation of `Service.UpdateWalletLabel`: closure update of the
label, then persistence of the updated wallet; the in-memory update is
kept even when persistence fails (as in the source). -/
def serviceUpdateLabel (save : SaveG) (serv : Service) (wltID label : String) :
    Except WalletError Unit × Service :=
  match Wallets.update serv.wallets wltID (fun w => { w with label := label }) with
  | Except.error e => (Except.error e, serv)
  | Except.ok p =>
    match save p.2 with
    | Except.error m => (Except.error (WalletError.external m), { serv with wallets := p.1 })
    | Except.ok _ => (Except.ok (), { serv with wallets := p.1 })

/-- Translation of `Service.Remove`: unconditionally drop the wallet
from the collection; the first-address index is not touched and no
error is ever produced. -/
def serviceRemove (serv : Service) (wltID : String) : Service :=
  { serv with wallets := Wallets.removeW serv.wallets wltID }

/-- Translation of the marking loop of `Service.removeDup`: walk the
wallets in processing order with the current index; mark every
zero-entry wallet; on a first-address collision keep the recorded wallet
when its entry count is at least the current one's (marking the current
wallet), otherwise mark the recorded wallet and repoint the index.
Returns the marked ids and the final index.  Collision lookups read the
full original collection, as in the source. -/
def removeDupLoop (all : Wallets) : AddrIndex → Wallets → List String × AddrIndex
  | idx, [] => ([], idx)
  | idx, (wltID, wlt) :: rest =>
    if wlt.entries.length = 0 then
      ((wltID :: (removeDupLoop all idx rest).1), (removeDupLoop all idx rest).2)
    else
      match aget idx (firstAddr wlt) with
      | some id =>
        if wlt.entries.length ≤ wcountOf all id then
          ((wltID :: (removeDupLoop all idx rest).1), (removeDupLoop all idx rest).2)
        else
          ((id :: (removeDupLoop all (aset idx (firstAddr wlt) wltID) rest).1),
           (removeDupLoop all (aset idx (firstAddr wlt) wltID) rest).2)
      | none => removeDupLoop all (aset idx (firstAddr wlt) wltID) rest

/-- Translation of `Service.removeDup`: run the marking loop over the
loaded wallets with the service's index, then delete every marked
wallet; returns the service with the updated index and the survivors. -/
def removeDup (serv : Service) (wlts : Wallets) : Service × Wallets :=
  ({ serv with firstAddrIDMap := (removeDupLoop wlts serv.firstAddrIDMap wlts).2 },
   List.foldl Wallets.removeW wlts (removeDupLoop wlts serv.firstAddrIDMap wlts).1)

/-- Translation of `Service.ReloadWallets`: reject when disabled,
otherwise take the freshly loaded collection (outcome of the persistence
gateway's `load_all`), reset the index, deduplicate, and replace the
in-memory state wholesale. -/
def serviceReloadWallets (loadRes : Except String Wallets) (serv : Service) :
    Except WalletError Unit × Service :=
  if serv.disableWalletAPI then (Except.error WalletError.apiDisabled, serv)
  else
    match loadRes with
    | Except.error m => (Except.error (WalletError.external m), serv)
    | Except.ok ws =>
      (Except.ok (),
       { (removeDup { serv with firstAddrIDMap := [] } ws).1 with
         wallets := (removeDup { serv with firstAddrIDMap := [] } ws).2 })

/-- Example entry used by the concrete witnesses. -/
def egEntry : Entry :=
  { address := "addr0", publicKey := "pk0", secret := "sk0", encryptedSeckey := "" }

/-- Example plaintext wallet used by the concrete witnesses. -/
def egWallet : Wallet :=
  { filename := "w1", label := "L", version := "0.1", seed := "sd",
    lastSeed := "ls", encrypted := false, entries := [egEntry] }

/-- Example registry holding `egWallet`, with its first address
recorded in the index. -/
def egService : Service :=
  { wallets := [("w1", egWallet)], firstAddrIDMap := [("addr0", "w1")],
    disableWalletAPI := false, walletDirectory := "d" }

/-- Example registry whose index also records the first address the
example derivation produces from the example options' seed. -/
def egService2 : Service :=
  { egService with firstAddrIDMap := [("addr0", "w1"), ("As0", "w1")] }

/-- Example creation options. -/
def egOptions : Options := { label := "X", seed := "s0" }

/-- Example deterministic derivation: the next checkpoint appends "x",
the derived address prepends "A". -/
def egGen : KeyGen := fun s =>
  (s ++ "x", { address := "A" ++ s, publicKey := "P" ++ s, secret := "S" ++ s,
               encryptedSeckey := "" })

/-- Encryption primitive that always fails. -/
def encFail : EncryptG := fun _ _ => Except.error "encrypt failed"

/-- Encryption primitive that always yields the same non-empty blob. -/
def encConst : EncryptG := fun _ _ => Except.ok "blob"

/-- Persistence gateway that always succeeds. -/
def saveOk : SaveG := fun _ => Except.ok ()

/-- Persistence gateway that always fails. -/
def saveFail : SaveG := fun _ => Except.error "disk full"

/-- Backup deletion outcome that succeeds. -/
def rmBakOk : Except String Unit := Except.ok ()

/-- Balance lookup reporting a zero balance for every address. -/
def bgZero : BalanceG := fun addrs => Except.ok (addrs.map (fun _ => 0))

/-- Fresh enabled registry with an empty collection and index. -/
def egServiceEmpty : Service :=
  { wallets := [], firstAddrIDMap := [], disableWalletAPI := false, walletDirectory := "d" }

/-- Wallet with `n` identical entries at first address "a", used by the
deduplication counterexample. -/
def egDupWallet (nm : String) (n : Nat) : Wallet :=
  { filename := nm, label := nm, version := "0.1", seed := nm, lastSeed := nm,
    encrypted := false,
    entries := List.replicate n { address := "a", publicKey := "p", secret := "s",
                                  encryptedSeckey := "" } }

/-- Three wallets sharing first address "a" with entry counts 5, 4, 3,
in that processing order. -/
def egDupWallets : Wallets :=
  [("A", egDupWallet "A" 5), ("B", egDupWallet "B" 4), ("C", egDupWallet "C" 3)]

/-- Wallet returned by a successful `serviceEncrypt` run on `egWallet`
with the constant-blob primitive. -/
def egWalletEnc : Wallet :=
  { filename := "w1", label := "L", version := Version, seed := "blob", lastSeed := "blob",
    encrypted := false,
    entries := [{ address := "addr0", publicKey := "pk0", secret := zeroSecKey,
                  encryptedSeckey := "blob" }] }

/-- Candidate addresses probed by a scan-ahead run on a wallet: the
addresses of the `n` entries derived beyond its current checkpoint. -/
def scanCandidates (gen : KeyGen) (w : Wallet) (n : Nat) : List String :=
  (genEntries gen n w.lastSeed).map (fun c => c.2.address)

/-- Encrypting an entry list fails as soon as the primitive fails on
some entry's original plaintext secret. -/
theorem encryptEntries_err (enc : EncryptG) (password : String) :
    ∀ es : List Entry, (∃ e ∈ es, isErr (enc e.secret password) = true) →
      isErr (encryptEntries enc password es) = true := by
  intro es
  induction es with
  | nil => rintro ⟨e, he, _⟩; cases he
  | cons a rest ih =>
    rintro ⟨e, he, hfail⟩
    unfold encryptEntries
    cases h1 : enc a.secret password with
    | error m => rfl
    | ok sk =>
      rcases List.mem_cons.mp he with rfl | hmem
      · rw [h1] at hfail; simp [isErr] at hfail
      · have hrec := ih ⟨e, hmem, hfail⟩
        cases h2 : encryptEntries enc password rest with
        | error m => rfl
        | ok r2 => rw [h2] at hrec; simp [isErr] at hrec

/-- Entries produced by a successful encryption run have zeroed
plaintext secrets and carry a blob produced by the primitive. -/
theorem encryptEntries_ok_secrets (enc : EncryptG) (password : String) :
    ∀ es es2, encryptEntries enc password es = Except.ok es2 →
      ∀ e ∈ es2, e.secret = zeroSecKey ∧ ∃ p, enc p password = Except.ok e.encryptedSeckey := by
  intro es
  induction es with
  | nil =>
    intro es2 h e he
    unfold encryptEntries at h
    injection h with h
    subst h
    cases he
  | cons a rest ih =>
    intro es2 h e he
    unfold encryptEntries at h
    cases h1 : enc a.secret password with
    | error m => rw [h1] at h; cases h
    | ok sk =>
      rw [h1] at h
      cases h2 : encryptEntries enc password rest with
      | error m => rw [h2] at h; cases h
      | ok r2 =>
        rw [h2] at h
        injection h with h
        subst h
        rcases List.mem_cons.mp he with rfl | hmem
        · exact ⟨rfl, a.secret, h1⟩
        · exact ih r2 h2 e hmem

/-- The registry state component of `serviceEncrypt` is the input state
on every path: the source never writes to the collection or the index. -/
theorem serviceEncrypt_state (enc : EncryptG) (save : SaveG) (rmBak : Except String Unit)
    (serv : Service) (wltID password : String) :
    (serviceEncrypt enc save rmBak serv wltID password).2 = serv := by
  unfold serviceEncrypt
  split
  · rfl
  · rfl

/-- Result component of `serviceEncrypt` on a present wallet id. -/
theorem serviceEncrypt_fst (enc : EncryptG) (save : SaveG) (rmBak : Except String Unit)
    (serv : Service) (wltID password : String) (w : Wallet)
    (hw : Wallets.get serv.wallets wltID = some w) :
    (serviceEncrypt enc save rmBak serv wltID password).1
      = encryptWallet enc save rmBak password w := by
  unfold serviceEncrypt
  rw [hw]

/-- C1: for a wallet id present in the registry, if the encryption
primitive fails on the seed, on the last-seed checkpoint or on any
entry's secret key, `encrypt` returns an error and the registry — in
particular the wallet observed through `get_wallet` — is unchanged. -/
theorem encrypt_failure_preserves_registry (enc : EncryptG) (save : SaveG)
    (rmBak : Except String Unit) (serv : Service) (wltID password : String) (w : Wallet)
    (hw : Wallets.get serv.wallets wltID = some w)
    (hfail : isErr (enc w.seed password) = true ∨ isErr (enc w.lastSeed password) = true ∨
      ∃ e ∈ w.entries, isErr (enc e.secret password) = true) :
    isErr (serviceEncrypt enc save rmBak serv wltID password).1 = true ∧
    (serviceEncrypt enc save rmBak serv wltID password).2 = serv ∧
    serviceGetWallet (serviceEncrypt enc save rmBak serv wltID password).2 wltID
      = serviceGetWallet serv wltID := by
  refine ⟨?_, serviceEncrypt_state enc save rmBak serv wltID password,
    by rw [serviceEncrypt_state enc save rmBak serv wltID password]⟩
  rw [serviceEncrypt_fst enc save rmBak serv wltID password w hw]
  unfold encryptWallet
  cases h1 : enc w.seed password with
  | error e => rfl
  | ok sseed =>
    cases h2 : enc w.lastSeed password with
    | error e => rfl
    | ok lsseed =>
      cases h3 : encryptEntries enc password w.entries with
      | error e => rfl
      | ok es =>
        exfalso
        rcases hfail with hfail | hfail | hfail
        · rw [h1] at hfail; simp [isErr] at hfail
        · rw [h2] at hfail; simp [isErr] at hfail
        · have := encryptEntries_err enc password w.entries hfail
          rw [h3] at this; simp [isErr] at this

/-- Witness for C1 at a concrete registry and an always-failing
encryption primitive. -/
theorem encrypt_failure_preserves_registry_witness :
    Wallets.get egService.wallets "w1" = some egWallet ∧
    isErr (encFail egWallet.seed "pw") = true ∧
    (isErr (serviceEncrypt encFail saveOk rmBakOk egService "w1" "pw").1 = true ∧
     (serviceEncrypt encFail saveOk rmBakOk egService "w1" "pw").2 = egService ∧
     serviceGetWallet (serviceEncrypt encFail saveOk rmBakOk egService "w1" "pw").2 "w1"
       = serviceGetWallet egService "w1") :=
  ⟨by decide, by decide,
   encrypt_failure_preserves_registry encFail saveOk rmBakOk egService "w1" "pw" egWallet
     (by decide) (Or.inl (by decide))⟩

/-- C2 counterexample: with an always-succeeding primitive, `encrypt`
succeeds, yet the registry still stores the original plaintext wallet:
`get_wallet` returns the pre-call wallet, whose entry secret is not the
zero value and whose encrypted flag is false. -/
theorem encrypt_success_leaves_stored_plaintext :
    isErr (serviceEncrypt encConst saveOk rmBakOk egService "w1" "pw").1 = false ∧
    (serviceEncrypt encConst saveOk rmBakOk egService "w1" "pw").2 = egService ∧
    serviceGetWallet (serviceEncrypt encConst saveOk rmBakOk egService "w1" "pw").2 "w1"
      = Except.ok egWallet ∧
    egWallet.entries.map (fun e => e.secret) = ["sk0"] ∧
    ("sk0" : String) ≠ zeroSecKey ∧
    egWallet.encrypted = false := by decide

/-- Shape of a successful encryption workflow run: the primitive
succeeded on seed, last seed and all entries, and the result is the
input wallet with bumped version, encrypted seeds and rebuilt entries. -/
theorem encryptWallet_ok_shape (enc : EncryptG) (save : SaveG) (rmBak : Except String Unit)
    (password : String) (w w2 : Wallet)
    (hok : encryptWallet enc save rmBak password w = Except.ok w2) :
    ∃ sseed lsseed es,
      enc w.seed password = Except.ok sseed ∧
      enc w.lastSeed password = Except.ok lsseed ∧
      encryptEntries enc password w.entries = Except.ok es ∧
      w2 = { w with version := Version, seed := sseed, lastSeed := lsseed, entries := es } := by
  unfold encryptWallet at hok
  split at hok
  · exact Except.noConfusion hok
  next sseed h1 =>
    split at hok
    · exact Except.noConfusion hok
    next lsseed h2 =>
      split at hok
      · exact Except.noConfusion hok
      next es h3 =>
        split at hok
        · exact Except.noConfusion hok
        next u h4 =>
          split at hok
          · exact Except.noConfusion hok
          next u2 h5 =>
            injection hok with hok
            exact ⟨sseed, lsseed, es, h1, h2, h3, hok.symm⟩

/-- C2 amended: when `encrypt` succeeds, the returned wallet has the
current schema version, every entry's plaintext secret zeroed and a
non-empty encrypted blob (when the primitive yields non-empty blobs),
and its encrypted flag is carried over unchanged; but the registry's
stored wallet is not replaced — `get_wallet` still returns the
pre-call wallet. -/
theorem encrypt_success_encrypts_returned_clone_only
    (enc : EncryptG) (save : SaveG) (rmBak : Except String Unit)
    (serv : Service) (wltID password : String) (w w2 : Wallet)
    (hw : Wallets.get serv.wallets wltID = some w)
    (hok : (serviceEncrypt enc save rmBak serv wltID password).1 = Except.ok w2)
    (hne : ∀ p c, enc p password = Except.ok c → c ≠ "") :
    w2.version = Version ∧
    (∀ e ∈ w2.entries, e.secret = zeroSecKey ∧ e.encryptedSeckey ≠ "") ∧
    w2.encrypted = w.encrypted ∧
    (serviceEncrypt enc save rmBak serv wltID password).2 = serv ∧
    serviceGetWallet (serviceEncrypt enc save rmBak serv wltID password).2 wltID
      = Except.ok w := by
  have hstate := serviceEncrypt_state enc save rmBak serv wltID password
  rw [serviceEncrypt_fst enc save rmBak serv wltID password w hw] at hok
  obtain ⟨sseed, lsseed, es, h1, h2, h3, hw2⟩ :=
    encryptWallet_ok_shape enc save rmBak password w w2 hok
  subst hw2
  refine ⟨rfl, ?_, rfl, hstate, ?_⟩
  · intro e he
    obtain ⟨hz, p, hp⟩ := encryptEntries_ok_secrets enc password w.entries es h3 e he
    exact ⟨hz, hne p e.encryptedSeckey hp⟩
  · rw [hstate]
    unfold serviceGetWallet getWalletI
    rw [hw]

/-- Witness for the amended C2 at a concrete registry and a primitive
returning a fixed non-empty blob. -/
theorem encrypt_success_encrypts_returned_clone_only_witness :
    Wallets.get egService.wallets "w1" = some egWallet ∧
    (serviceEncrypt encConst saveOk rmBakOk egService "w1" "pw").1 = Except.ok egWalletEnc ∧
    (egWalletEnc.version = Version ∧
     (∀ e ∈ egWalletEnc.entries, e.secret = zeroSecKey ∧ e.encryptedSeckey ≠ "") ∧
     egWalletEnc.encrypted = egWallet.encrypted ∧
     (serviceEncrypt encConst saveOk rmBakOk egService "w1" "pw").2 = egService ∧
     serviceGetWallet (serviceEncrypt encConst saveOk rmBakOk egService "w1" "pw").2 "w1"
       = Except.ok egWallet) :=
  ⟨by decide, by decide,
   encrypt_success_encrypts_returned_clone_only encConst saveOk rmBakOk egService "w1" "pw"
     egWallet egWalletEnc (by decide) (by decide)
     (fun p c h => by injection h with h2; subst h2; decide)⟩

/-- Wallet id absent from a collection after removal by that id. -/
theorem get_removeW_self (id : String) :
    ∀ ws : Wallets, Wallets.get (Wallets.removeW ws id) id = none := by
  intro ws
  induction ws with
  | nil => rfl
  | cons p rest ih =>
    obtain ⟨k, w⟩ := p
    unfold Wallets.removeW
    by_cases hk : k = id
    · simp [hk, ih]
    · simp [Wallets.get, hk, ih]

/-- C9: `remove` drops the wallet from the collection — a subsequent
`get_wallet` fails with the bare NotFound error — while the
first-address index is left completely unchanged; `remove` returns no
error by construction. -/
theorem remove_drops_wallet_keeps_index (serv : Service) (wltID : String) :
    serviceGetWallet (serviceRemove serv wltID) wltID = Except.error WalletError.notExistVar ∧
    (serviceRemove serv wltID).firstAddrIDMap = serv.firstAddrIDMap := by
  constructor
  · unfold serviceGetWallet getWalletI serviceRemove
    simp [get_removeW_self]
  · rfl

/-- C10: the NotFound error is not uniform: for an absent id,
`get_wallet` and the lookup used by `scan_ahead_addresses` yield the
bare no-id error value, while `new_addresses`, `get_addresses`,
`encrypt` and `create_and_sign_transaction` yield the form embedding
the requested id, and the two forms are never equal. -/
theorem notfound_error_forms_differ (gen : KeyGen) (bg : BalanceG) (save : SaveG)
    (enc : EncryptG) (rmBak : Except String Unit) (txb : Wallet → Except String String)
    (serv : Service) (wltID password : String) (num scanN : Nat)
    (habs : Wallets.get serv.wallets wltID = none) :
    serviceGetWallet serv wltID = Except.error WalletError.notExistVar ∧
    (serviceScanAhead gen bg save serv wltID scanN).1 = Except.error WalletError.notExistVar ∧
    (serviceNewAddresses gen save serv wltID num).1
      = Except.error (WalletError.notExistWithId wltID) ∧
    serviceGetAddresses serv wltID = Except.error (WalletError.notExistWithId wltID) ∧
    (serviceEncrypt enc save rmBak serv wltID password).1
      = Except.error (WalletError.notExistWithId wltID) ∧
    serviceCreateAndSignTransaction txb serv wltID
      = Except.error (WalletError.notExistWithId wltID) ∧
    ∀ i : String, WalletError.notExistVar ≠ WalletError.notExistWithId i := by
  refine ⟨?_, ?_, ?_, ?_, ?_, ?_, fun i h => WalletError.noConfusion h⟩
  all_goals
    simp [serviceGetWallet, getWalletI, serviceScanAhead, serviceNewAddresses,
      serviceGetAddresses, serviceEncrypt, serviceCreateAndSignTransaction, habs]

/-- Witness for C10 at an empty registry and an absent id. -/
theorem notfound_error_forms_differ_witness :
    Wallets.get egServiceEmpty.wallets "nope" = none ∧
    (serviceGetWallet egServiceEmpty "nope" = Except.error WalletError.notExistVar ∧
     (serviceScanAhead egGen bgZero saveOk egServiceEmpty "nope" 2).1
       = Except.error WalletError.notExistVar ∧
     (serviceNewAddresses egGen saveOk egServiceEmpty "nope" 1).1
       = Except.error (WalletError.notExistWithId "nope") ∧
     serviceGetAddresses egServiceEmpty "nope"
       = Except.error (WalletError.notExistWithId "nope") ∧
     (serviceEncrypt encConst saveOk rmBakOk egServiceEmpty "nope" "pw").1
       = Except.error (WalletError.notExistWithId "nope") ∧
     serviceCreateAndSignTransaction (fun _ => Except.ok "tx") egServiceEmpty "nope"
       = Except.error (WalletError.notExistWithId "nope") ∧
     ∀ i : String, WalletError.notExistVar ≠ WalletError.notExistWithId i) :=
  ⟨rfl,
   notfound_error_forms_differ egGen bgZero saveOk encConst rmBakOk (fun _ => Except.ok "tx")
     egServiceEmpty "nope" "pw" 1 2 rfl⟩

/-- First address of the wallet built by `loadWallet`: the address the
derivation step produces from the options' seed. -/
theorem firstAddr_builtWallet (gen : KeyGen) (nm : String) (o : Options) :
    firstAddr (builtWallet gen nm o) = (gen o.seed).2.address := rfl

/-- Duplicate branch of `loadWallet`: when the built wallet's first
address is recorded in the index, the call fails with `DuplicateWallet`
carrying the recorded id and the registry is returned unchanged. -/
theorem loadWallet_dup (gen : KeyGen) (save : SaveG) (bgOpt : Option BalanceG)
    (serv : Service) (nm : String) (o : Options) (scanN : Nat) (exid : String)
    (hdup : aget serv.firstAddrIDMap (firstAddr (builtWallet gen nm o)) = some exid) :
    loadWallet gen save bgOpt serv nm o scanN
      = (Except.error (WalletError.duplicateWallet exid), serv) := by
  unfold loadWallet
  rw [hdup]

/-- Non-duplicate branch of `loadWallet` without scanning: the call
reduces to insert-and-persist of the built wallet. -/
theorem loadWallet_nodup_noscan (gen : KeyGen) (save : SaveG)
    (serv : Service) (nm : String) (o : Options)
    (hdup : aget serv.firstAddrIDMap (firstAddr (builtWallet gen nm o)) = none) :
    loadWallet gen save none serv nm o 0 = insertAndSave save serv (builtWallet gen nm o) := by
  unfold loadWallet
  rw [hdup]
  rfl

/-- C3: when the options' seed derives a first address already recorded
in the index, `create_wallet` fails with `DuplicateWallet` carrying the
recorded wallet's id and the registry — wallet collection and index —
is exactly as before the call. -/
theorem create_wallet_duplicate_rejected (gen : KeyGen) (save : SaveG)
    (freshName : Wallets → String) (serv : Service) (wltName : String) (o : Options)
    (exid : String)
    (hdis : serv.disableWalletAPI = false)
    (hdup : aget serv.firstAddrIDMap ((gen o.seed).2.address) = some exid) :
    serviceCreateWallet gen save freshName serv wltName o
      = (Except.error (WalletError.duplicateWallet exid), serv) := by
  unfold serviceCreateWallet
  rw [hdis]
  show loadWallet gen save none serv (resolveName freshName serv wltName) o 0
      = (Except.error (WalletError.duplicateWallet exid), serv)
  exact loadWallet_dup gen save none serv _ o 0 exid
    (by rw [firstAddr_builtWallet]; exact hdup)

/-- Witness for C3 at a concrete registry whose index records the first
address derived from the example options' seed. -/
theorem create_wallet_duplicate_rejected_witness :
    egService2.disableWalletAPI = false ∧
    aget egService2.firstAddrIDMap ((egGen egOptions.seed).2.address) = some "w1" ∧
    serviceCreateWallet egGen saveOk (fun _ => "n") egService2 "w2" egOptions
      = (Except.error (WalletError.duplicateWallet "w1"), egService2) :=
  ⟨rfl, by decide,
   create_wallet_duplicate_rejected egGen saveOk (fun _ => "n") egService2 "w2" egOptions "w1"
     rfl (by decide)⟩

/-- Removing a freshly appended key restores the original collection. -/
theorem removeW_append_self (nm : String) (w : Wallet) :
    ∀ ws : Wallets, Wallets.get ws nm = none →
      Wallets.removeW (ws ++ [(nm, w)]) nm = ws := by
  intro ws
  induction ws with
  | nil =>
    intro _
    show Wallets.removeW [(nm, w)] nm = []
    unfold Wallets.removeW
    rw [if_pos rfl]
    rfl
  | cons p rest ih =>
    obtain ⟨k, v⟩ := p
    intro h
    unfold Wallets.get at h
    by_cases hk : k = nm
    · rw [if_pos hk] at h; exact Option.noConfusion h
    · rw [if_neg hk] at h
      show Wallets.removeW ((k, v) :: (rest ++ [(nm, w)])) nm = (k, v) :: rest
      unfold Wallets.removeW
      rw [if_neg hk, ih h]

/-- Failure branch of insert-and-persist: when the id was fresh and the
gateway fails, the just-inserted wallet is removed again, the index is
untouched and the persistence error is propagated. -/
theorem insertAndSave_save_failure (save : SaveG) (serv : Service) (w2 : Wallet) (msg : String)
    (hfree : Wallets.get serv.wallets w2.filename = none)
    (hsave : save w2 = Except.error msg) :
    insertAndSave save serv w2 = (Except.error (WalletError.external msg), serv) := by
  unfold insertAndSave Wallets.add
  rw [hfree, hsave]
  show (Except.error (WalletError.external msg),
        { serv with
          wallets := Wallets.removeW (serv.wallets ++ [(w2.filename, w2)]) w2.filename })
      = (Except.error (WalletError.external msg), serv)
  rw [removeW_append_self w2.filename w2 serv.wallets hfree]

/-- C5: when `create_wallet` passes the duplicate check and inserts the
new wallet but persistence then fails, the inserted wallet is removed
again, the index is not updated and the persistence error is
propagated: the registry is exactly as before the call. -/
theorem create_wallet_save_failure_rollback (gen : KeyGen) (save : SaveG)
    (freshName : Wallets → String) (serv : Service) (wltName : String) (o : Options)
    (msg : String)
    (hdis : serv.disableWalletAPI = false)
    (hdup : aget serv.firstAddrIDMap ((gen o.seed).2.address) = none)
    (hfree : Wallets.get serv.wallets (resolveName freshName serv wltName) = none)
    (hsave : save (builtWallet gen (resolveName freshName serv wltName) o)
      = Except.error msg) :
    serviceCreateWallet gen save freshName serv wltName o
      = (Except.error (WalletError.external msg), serv) := by
  unfold serviceCreateWallet
  rw [hdis]
  show loadWallet gen save none serv (resolveName freshName serv wltName) o 0
      = (Except.error (WalletError.external msg), serv)
  rw [loadWallet_nodup_noscan gen save serv _ o (by rw [firstAddr_builtWallet]; exact hdup)]
  exact insertAndSave_save_failure save serv _ msg hfree hsave

/-- Witness for C5 at a concrete registry and an always-failing
persistence gateway. -/
theorem create_wallet_save_failure_rollback_witness :
    egService.disableWalletAPI = false ∧
    aget egService.firstAddrIDMap ((egGen egOptions.seed).2.address) = none ∧
    Wallets.get egService.wallets (resolveName (fun _ => "n") egService "") = none ∧
    saveFail (builtWallet egGen (resolveName (fun _ => "n") egService "") egOptions)
      = Except.error "disk full" ∧
    serviceCreateWallet egGen saveFail (fun _ => "n") egService "" egOptions
      = (Except.error (WalletError.external "disk full"), egService) :=
  ⟨rfl, by decide, by decide, rfl,
   create_wallet_save_failure_rollback egGen saveFail (fun _ => "n") egService "" egOptions
     "disk full" rfl (by decide) (by decide) rfl⟩

/-- C6 counterexample: on the disabled-constructed registry,
`new_addresses` does not fail with the dedicated ApiDisabled error but
with the id-carrying NotFound error (the flag is never checked). -/
theorem disabled_new_addresses_not_api_disabled :
    newServiceDisabled.disableWalletAPI = true ∧
    (serviceNewAddresses egGen saveOk newServiceDisabled "x" 1).1
      = Except.error (WalletError.notExistWithId "x") ∧
    (Except.error (WalletError.notExistWithId "x") : Except WalletError (List String))
      ≠ Except.error WalletError.apiDisabled := by decide

/-- C6 amended: only `create_wallet` and `reload_wallets` check the
disabled flag and fail with ApiDisabled leaving the state unchanged;
`new_addresses`, `encrypt`, `scan_ahead_addresses` and `update_label`
do not check it — on the registry constructed disabled (whose
collection is empty) they fail with their NotFound errors instead. -/
theorem disabled_guard_only_create_and_reload (gen : KeyGen) (bg : BalanceG) (save : SaveG)
    (enc : EncryptG) (rmBak : Except String Unit) :
    (∀ (serv : Service) (freshName : Wallets → String) (wltName : String) (o : Options),
        serv.disableWalletAPI = true →
        serviceCreateWallet gen save freshName serv wltName o
          = (Except.error WalletError.apiDisabled, serv)) ∧
    (∀ (serv : Service) (loadRes : Except String Wallets),
        serv.disableWalletAPI = true →
        serviceReloadWallets loadRes serv = (Except.error WalletError.apiDisabled, serv)) ∧
    (∀ (wltID : String) (num : Nat),
        serviceNewAddresses gen save newServiceDisabled wltID num
          = (Except.error (WalletError.notExistWithId wltID), newServiceDisabled)) ∧
    (∀ (wltID password : String),
        serviceEncrypt enc save rmBak newServiceDisabled wltID password
          = (Except.error (WalletError.notExistWithId wltID), newServiceDisabled)) ∧
    (∀ (wltID : String) (scanN : Nat),
        serviceScanAhead gen bg save newServiceDisabled wltID scanN
          = (Except.error WalletError.notExistVar, newServiceDisabled)) ∧
    (∀ (wltID label : String),
        serviceUpdateLabel save newServiceDisabled wltID label
          = (Except.error WalletError.notExistVar, newServiceDisabled)) := by
  refine ⟨?_, ?_, ?_, ?_, ?_, ?_⟩
  · intro serv freshName wltName o hd
    unfold serviceCreateWallet
    rw [hd]
    rfl
  · intro serv loadRes hd
    unfold serviceReloadWallets
    rw [hd]
    rfl
  · intro wltID num; rfl
  · intro wltID password; rfl
  · intro wltID scanN; rfl
  · intro wltID label; rfl

/-- Witness for the amended C6 at concrete inputs. -/
theorem disabled_guard_only_create_and_reload_witness :
    newServiceDisabled.disableWalletAPI = true ∧
    serviceCreateWallet egGen saveOk (fun _ => "n") newServiceDisabled "" egOptions
      = (Except.error WalletError.apiDisabled, newServiceDisabled) ∧
    serviceReloadWallets (Except.ok []) newServiceDisabled
      = (Except.error WalletError.apiDisabled, newServiceDisabled) ∧
    serviceNewAddresses egGen saveOk newServiceDisabled "x" 1
      = (Except.error (WalletError.notExistWithId "x"), newServiceDisabled) :=
  ⟨rfl,
   (disabled_guard_only_create_and_reload egGen bgZero saveOk encConst rmBakOk).1
     newServiceDisabled (fun _ => "n") "" egOptions rfl,
   (disabled_guard_only_create_and_reload egGen bgZero saveOk encConst rmBakOk).2.1
     newServiceDisabled (Except.ok []) rfl,
   (disabled_guard_only_create_and_reload egGen bgZero saveOk encConst rmBakOk).2.2.1 "x" 1⟩

/-- Derivation produces exactly the requested number of entries. -/
theorem genEntries_length (gen : KeyGen) :
    ∀ (n : Nat) (s : String), (genEntries gen n s).length = n := by
  intro n
  induction n with
  | zero => intro s; rfl
  | succ m ih =>
    intro s
    unfold genEntries
    simp [ih]

/-- C7 counterexample: on a 1-entry wallet, `new_addresses(id, 3)`
returns 3 addresses but the registry is unchanged, so `get_addresses`
afterwards still returns the single original address, not 4. -/
theorem new_addresses_not_written_back :
    (serviceNewAddresses egGen saveOk egService "w1" 3).1
      = Except.ok ["Als", "Alsx", "Alsxx"] ∧
    (serviceNewAddresses egGen saveOk egService "w1" 3).2 = egService ∧
    serviceGetAddresses (serviceNewAddresses egGen saveOk egService "w1" 3).2 "w1"
      = Except.ok ["addr0"] ∧
    (["addr0"] : List String).length ≠ 1 + 3 := by decide

/-- C7 amended: on a present wallet id with successful persistence,
`new_addresses` returns exactly the `num` newly derived addresses (and
only those), but does not write the extended wallet back: the registry
is unchanged and a subsequent `get_addresses` returns only the original
addresses in their original order. -/
theorem new_addresses_returns_new_only (gen : KeyGen) (save : SaveG) (serv : Service)
    (wltID : String) (num : Nat) (w : Wallet)
    (hw : Wallets.get serv.wallets wltID = some w)
    (hsave : save (generateAddresses gen w num).1 = Except.ok ()) :
    serviceNewAddresses gen save serv wltID num
      = (Except.ok ((genEntries gen num w.lastSeed).map (fun c => c.2.address)), serv) ∧
    ((genEntries gen num w.lastSeed).map (fun c => c.2.address)).length = num ∧
    serviceGetAddresses serv wltID = Except.ok (w.entries.map Entry.address) := by
  refine ⟨?_, by simp [List.length_map, genEntries_length], ?_⟩
  · unfold serviceNewAddresses
    rw [hw]
    show newAddressesFound gen save serv num w
        = (Except.ok ((genEntries gen num w.lastSeed).map (fun c => c.2.address)), serv)
    unfold newAddressesFound
    rw [hsave]
    rfl
  · unfold serviceGetAddresses
    rw [hw]

/-- Witness for the amended C7 at a concrete 1-entry wallet. -/
theorem new_addresses_returns_new_only_witness :
    Wallets.get egService.wallets "w1" = some egWallet ∧
    saveOk (generateAddresses egGen egWallet 2).1 = Except.ok () ∧
    (serviceNewAddresses egGen saveOk egService "w1" 2
       = (Except.ok ((genEntries egGen 2 egWallet.lastSeed).map (fun c => c.2.address)),
          egService) ∧
     ((genEntries egGen 2 egWallet.lastSeed).map (fun c => c.2.address)).length = 2 ∧
     serviceGetAddresses egService "w1" = Except.ok (egWallet.entries.map Entry.address)) :=
  ⟨by decide, rfl,
   new_addresses_returns_new_only egGen saveOk egService "w1" 2 egWallet (by decide) rfl⟩

/-- Lookup after a keyed replacement finds the replacement. -/
theorem get_setK_self (id : String) (w : Wallet) :
    ∀ ws : Wallets, Wallets.get (Wallets.setK ws id w) id = some w := by
  intro ws
  induction ws with
  | nil =>
    show Wallets.get [(id, w)] id = some w
    unfold Wallets.get
    rw [if_pos rfl]
  | cons p rest ih =>
    obtain ⟨k, v⟩ := p
    unfold Wallets.setK
    by_cases hk : k = id
    · rw [if_pos hk]
      show Wallets.get ((id, w) :: rest) id = some w
      unfold Wallets.get
      rw [if_pos rfl]
    · rw [if_neg hk]
      show Wallets.get ((k, v) :: Wallets.setK rest id w) id = some w
      unfold Wallets.get
      rw [if_neg hk, ih]

/-- A balance list with no strictly positive element has no highest
positive index. -/
theorem lastPositiveIdx_all_zero :
    ∀ bs : List Nat, (∀ b ∈ bs, b = 0) → lastPositiveIdx bs = none := by
  intro bs
  induction bs with
  | nil => intro _; rfl
  | cons b rest ih =>
    intro h
    unfold lastPositiveIdx
    rw [ih (fun x hx => h x (List.mem_cons_of_mem b hx))]
    have hb : b = 0 := h b (List.mem_cons_self b rest)
    subst hb
    rfl

/-- A successful scan never shrinks the entry list, preserves the
wallet id, and leaves the wallet untouched when the balance lookup
reports no strictly positive balance among the candidates. -/
theorem scanAddresses_ok_length (gen : KeyGen) (bg : BalanceG) (w w2 : Wallet) (n : Nat)
    (hok : scanAddresses gen bg w n = Except.ok w2) :
    w.entries.length ≤ w2.entries.length ∧ w2.filename = w.filename ∧
    ((∀ bs, bg (scanCandidates gen w n) = Except.ok bs → lastPositiveIdx bs = none) →
      w2 = w) := by
  unfold scanAddresses at hok
  split at hok
  · exact Except.noConfusion hok
  next bs hbg =>
    split at hok
    next hlpi =>
      injection hok with hok
      subst hok
      exact ⟨le_refl _, rfl, fun _ => rfl⟩
    next k hlpi =>
      injection hok with hok
      subst hok
      refine ⟨by simp, rfl, ?_⟩
      intro hz
      have hnone := hz bs hbg
      rw [hlpi] at hnone
      exact Option.noConfusion hnone

/-- Lookup step of `scan_ahead_addresses` on a present id. -/
theorem serviceScanAhead_some (gen : KeyGen) (bg : BalanceG) (save : SaveG)
    (serv : Service) (wltID : String) (scanN : Nat) (w : Wallet)
    (hw : Wallets.get serv.wallets wltID = some w) :
    serviceScanAhead gen bg save serv wltID scanN = scanAheadFound gen bg save serv w scanN := by
  unfold serviceScanAhead getWalletI
  rw [hw]

/-- Failed scan leaves the registry unchanged. -/
theorem scanAheadFound_err (gen : KeyGen) (bg : BalanceG) (save : SaveG)
    (serv : Service) (w : Wallet) (scanN : Nat) (e : WalletError)
    (hscan : scanAddresses gen bg w scanN = Except.error e) :
    scanAheadFound gen bg save serv w scanN = (Except.error e, serv) := by
  unfold scanAheadFound
  rw [hscan]

/-- Successful scan hands the scanned wallet to persist-replace. -/
theorem scanAheadFound_ok (gen : KeyGen) (bg : BalanceG) (save : SaveG)
    (serv : Service) (w w2 : Wallet) (scanN : Nat)
    (hscan : scanAddresses gen bg w scanN = Except.ok w2) :
    scanAheadFound gen bg save serv w scanN = scanSaveStep save serv w2 := by
  unfold scanAheadFound
  rw [hscan]

/-- Failed persistence after a scan leaves the registry unchanged. -/
theorem scanSaveStep_err (save : SaveG) (serv : Service) (w2 : Wallet) (m : String)
    (hsave : save w2 = Except.error m) :
    scanSaveStep save serv w2 = (Except.error (WalletError.external m), serv) := by
  unfold scanSaveStep
  rw [hsave]

/-- Successful persistence after a scan replaces the stored wallet. -/
theorem scanSaveStep_ok (save : SaveG) (serv : Service) (w2 : Wallet) (u : Unit)
    (hsave : save w2 = Except.ok u) :
    scanSaveStep save serv w2
      = (Except.ok w2, { serv with wallets := Wallets.set serv.wallets w2 }) := by
  unfold scanSaveStep
  rw [hsave]

/-- C8: `scan_ahead_addresses` never removes pre-existing entries: the
entry count of the stored wallet after the call is at least the count
before it, and is equal to it whenever the balance lookup reports no
strictly positive balance for any probed candidate (or fails). -/
theorem scan_ahead_never_shrinks (gen : KeyGen) (bg : BalanceG) (save : SaveG)
    (serv : Service) (wltID : String) (scanN : Nat) (w : Wallet)
    (hw : Wallets.get serv.wallets wltID = some w)
    (hfn : w.filename = wltID) :
    wcountOf serv.wallets wltID
        ≤ wcountOf (serviceScanAhead gen bg save serv wltID scanN).2.wallets wltID ∧
    ((∀ bs, bg (scanCandidates gen w scanN) = Except.ok bs → ∀ b ∈ bs, b = 0) →
      wcountOf (serviceScanAhead gen bg save serv wltID scanN).2.wallets wltID
        = wcountOf serv.wallets wltID) := by
  have hbefore : wcountOf serv.wallets wltID = w.entries.length := by
    unfold wcountOf
    rw [hw]
  rw [serviceScanAhead_some gen bg save serv wltID scanN w hw]
  cases hscan : scanAddresses gen bg w scanN with
  | error e =>
    rw [scanAheadFound_err gen bg save serv w scanN e hscan]
    exact ⟨le_refl _, fun _ => rfl⟩
  | ok w2 =>
    rw [scanAheadFound_ok gen bg save serv w w2 scanN hscan]
    obtain ⟨hle, hfn2, hzero⟩ := scanAddresses_ok_length gen bg w w2 scanN hscan
    cases hsave : save w2 with
    | error m =>
      rw [scanSaveStep_err save serv w2 m hsave]
      exact ⟨le_refl _, fun _ => rfl⟩
    | ok u =>
      rw [scanSaveStep_ok save serv w2 u hsave]
      have hafter : wcountOf (Wallets.set serv.wallets w2) wltID = w2.entries.length := by
        unfold Wallets.set wcountOf
        rw [hfn2, hfn, get_setK_self]
      constructor
      · show wcountOf serv.wallets wltID ≤ wcountOf (Wallets.set serv.wallets w2) wltID
        rw [hafter, hbefore]
        exact hle
      · intro hz
        have hw2 : w2 = w := hzero (fun bs hbs => lastPositiveIdx_all_zero bs (hz bs hbs))
        show wcountOf (Wallets.set serv.wallets w2) wltID = wcountOf serv.wallets wltID
        rw [hafter, hbefore, hw2]

/-- Witness for C8 at a concrete wallet and an all-zero balance lookup. -/
theorem scan_ahead_never_shrinks_witness :
    Wallets.get egService.wallets "w1" = some egWallet ∧
    egWallet.filename = "w1" ∧
    (wcountOf egService.wallets "w1"
        ≤ wcountOf (serviceScanAhead egGen bgZero saveOk egService "w1" 2).2.wallets "w1" ∧
     ((∀ bs, bgZero (scanCandidates egGen egWallet 2) = Except.ok bs → ∀ b ∈ bs, b = 0) →
       wcountOf (serviceScanAhead egGen bgZero saveOk egService "w1" 2).2.wallets "w1"
         = wcountOf egService.wallets "w1")) :=
  ⟨by decide, rfl,
   scan_ahead_never_shrinks egGen bgZero saveOk egService "w1" 2 egWallet (by decide) rfl⟩

/-- Index lookup after assignment at the assigned address. -/
theorem aget_aset_self (a v : String) : ∀ m : AddrIndex, aget (aset m a v) a = some v := by
  intro m
  induction m with
  | nil =>
    show aget [(a, v)] a = some v
    unfold aget
    rw [if_pos rfl]
  | cons p rest ih =>
    obtain ⟨k, u⟩ := p
    unfold aset
    by_cases hk : k = a
    · rw [if_pos hk]
      show aget ((a, v) :: rest) a = some v
      unfold aget
      rw [if_pos rfl]
    · rw [if_neg hk]
      show aget ((k, u) :: aset rest a v) a = some v
      unfold aget
      rw [if_neg hk, ih]

/-- Index lookup after assignment at a different address. -/
theorem aget_aset_ne (a v b : String) (hba : b ≠ a) :
    ∀ m : AddrIndex, aget (aset m a v) b = aget m b := by
  intro m
  induction m with
  | nil =>
    show aget [(a, v)] b = aget [] b
    unfold aget
    rw [if_neg (fun h => hba h.symm)]
    rfl
  | cons p rest ih =>
    obtain ⟨k, u⟩ := p
    unfold aset
    by_cases hk : k = a
    · rw [if_pos hk]
      show aget ((a, v) :: rest) b = aget ((k, u) :: rest) b
      unfold aget
      rw [if_neg (fun h => hba h.symm), if_neg (fun h => hba (h.symm.trans hk))]
    · rw [if_neg hk]
      show aget ((k, u) :: aset rest a v) b = aget ((k, u) :: rest) b
      unfold aget
      by_cases hkb : k = b
      · rw [if_pos hkb, if_pos hkb]
      · rw [if_neg hkb, if_neg hkb, ih]

/-- In a collection with distinct keys, membership determines lookup. -/
theorem get_of_mem_nodup : ∀ ws : Wallets, keysNodup ws → ∀ (k : String) (w : Wallet),
    (k, w) ∈ ws → Wallets.get ws k = some w := by
  intro ws
  induction ws with
  | nil => intro _ k w h; cases h
  | cons p rest ih =>
    obtain ⟨k0, w0⟩ := p
    intro hnd k w h
    simp only [keysNodup, List.map_cons, List.nodup_cons] at hnd
    rcases List.mem_cons.mp h with heq | hmem
    · rw [Prod.mk.injEq] at heq
      obtain ⟨h1, h2⟩ := heq
      subst h1
      subst h2
      show Wallets.get ((k, w) :: rest) k = some w
      unfold Wallets.get
      rw [if_pos rfl]
    · show Wallets.get ((k0, w0) :: rest) k = some w
      unfold Wallets.get
      by_cases hk : k0 = k
      · exfalso
        apply hnd.1
        rw [hk]
        exact List.mem_map.mpr ⟨(k, w), hmem, rfl⟩
      · rw [if_neg hk]
        exact ih hnd.2 k w hmem

/-- Membership after deletion by key. -/
theorem mem_removeW_iff (k : String) (w : Wallet) (id : String) :
    ∀ ws : Wallets, ((k, w) ∈ Wallets.removeW ws id ↔ (k, w) ∈ ws ∧ k ≠ id) := by
  intro ws
  induction ws with
  | nil =>
    show (k, w) ∈ ([] : Wallets) ↔ _
    simp
  | cons p rest ih =>
    obtain ⟨k0, w0⟩ := p
    unfold Wallets.removeW
    by_cases hk : k0 = id
    · rw [if_pos hk, ih]
      subst hk
      constructor
      · rintro ⟨hmem, hne⟩
        exact ⟨List.mem_cons_of_mem _ hmem, hne⟩
      · rintro ⟨hmem, hne⟩
        rcases List.mem_cons.mp hmem with heq | hmem2
        · exfalso
          apply hne
          rw [Prod.mk.injEq] at heq
          exact heq.1
        · exact ⟨hmem2, hne⟩
    · rw [if_neg hk]
      constructor
      · intro hmem
        rcases List.mem_cons.mp hmem with heq | hmem2
        · rw [Prod.mk.injEq] at heq
          refine ⟨List.mem_cons.mpr (Or.inl (by rw [Prod.mk.injEq]; exact heq)), ?_⟩
          rw [heq.1]
          exact hk
        · obtain ⟨h1, h2⟩ := ih.mp hmem2
          exact ⟨List.mem_cons_of_mem _ h1, h2⟩
      · rintro ⟨hmem, hne⟩
        rcases List.mem_cons.mp hmem with heq | hmem2
        · exact List.mem_cons.mpr (Or.inl heq)
        · exact List.mem_cons.mpr (Or.inr (ih.mpr ⟨hmem2, hne⟩))

/-- Membership after the removal sweep of the deduplication pass. -/
theorem mem_foldl_removeW (k : String) (w : Wallet) :
    ∀ (ids : List String) (ws : Wallets),
      ((k, w) ∈ List.foldl Wallets.removeW ws ids ↔ (k, w) ∈ ws ∧ k ∉ ids) := by
  intro ids
  induction ids with
  | nil => intro ws; simp
  | cons id rest ih =>
    intro ws
    rw [List.foldl_cons, ih, mem_removeW_iff]
    constructor
    · rintro ⟨⟨h1, h2⟩, h3⟩
      refine ⟨h1, ?_⟩
      intro hmem
      rcases List.mem_cons.mp hmem with heq | hmem2
      · exact h2 heq
      · exact h3 hmem2
    · rintro ⟨h1, h2⟩
      exact ⟨⟨h1, fun heq => h2 (List.mem_cons.mpr (Or.inl heq))⟩,
             fun hmem => h2 (List.mem_cons.mpr (Or.inr hmem))⟩

/-- Empty-wallet step of the marking loop. -/
theorem removeDupLoop_empty (all : Wallets) (idx : AddrIndex) (wltID : String) (wlt : Wallet)
    (rest : Wallets) (h : wlt.entries.length = 0) :
    removeDupLoop all idx ((wltID, wlt) :: rest)
      = ((wltID :: (removeDupLoop all idx rest).1), (removeDupLoop all idx rest).2) := by
  simp [removeDupLoop, h]

/-- Collision step of the marking loop keeping the recorded wallet. -/
theorem removeDupLoop_keep (all : Wallets) (idx : AddrIndex) (wltID : String) (wlt : Wallet)
    (rest : Wallets) (id : String)
    (h0 : ¬ wlt.entries.length = 0)
    (hidx : aget idx (firstAddr wlt) = some id)
    (hle : wlt.entries.length ≤ wcountOf all id) :
    removeDupLoop all idx ((wltID, wlt) :: rest)
      = ((wltID :: (removeDupLoop all idx rest).1), (removeDupLoop all idx rest).2) := by
  simp [removeDupLoop, h0, hidx, hle]

/-- Collision step of the marking loop replacing the recorded wallet. -/
theorem removeDupLoop_replace (all : Wallets) (idx : AddrIndex) (wltID : String) (wlt : Wallet)
    (rest : Wallets) (id : String)
    (h0 : ¬ wlt.entries.length = 0)
    (hidx : aget idx (firstAddr wlt) = some id)
    (hgt : ¬ wlt.entries.length ≤ wcountOf all id) :
    removeDupLoop all idx ((wltID, wlt) :: rest)
      = ((id :: (removeDupLoop all (aset idx (firstAddr wlt) wltID) rest).1),
         (removeDupLoop all (aset idx (firstAddr wlt) wltID) rest).2) := by
  simp [removeDupLoop, h0, hidx, hgt]

/-- Fresh-address step of the marking loop. -/
theorem removeDupLoop_new (all : Wallets) (idx : AddrIndex) (wltID : String) (wlt : Wallet)
    (rest : Wallets)
    (h0 : ¬ wlt.entries.length = 0)
    (hidx : aget idx (firstAddr wlt) = none) :
    removeDupLoop all idx ((wltID, wlt) :: rest)
      = removeDupLoop all (aset idx (firstAddr wlt) wltID) rest := by
  simp [removeDupLoop, h0, hidx]

/-- Every zero-entry wallet of the processed list is marked. -/
theorem loop_marks_empty (all : Wallets) :
    ∀ (ps : Wallets) (idx : AddrIndex) (k : String) (w : Wallet),
      (k, w) ∈ ps → w.entries.length = 0 → k ∈ (removeDupLoop all idx ps).1 := by
  intro ps
  induction ps with
  | nil => intro idx k w h _; cases h
  | cons p rest ih =>
    obtain ⟨k0, w0⟩ := p
    intro idx k w hmem hlen
    rcases List.mem_cons.mp hmem with heq | hmem2
    · rw [Prod.mk.injEq] at heq
      obtain ⟨h1, h2⟩ := heq
      subst h1
      subst h2
      rw [removeDupLoop_empty all idx k w rest hlen]
      exact List.mem_cons_self k _
    · by_cases h0 : w0.entries.length = 0
      · rw [removeDupLoop_empty all idx k0 w0 rest h0]
        exact List.mem_cons_of_mem k0 (ih idx k w hmem2 hlen)
      · cases hcur : aget idx (firstAddr w0) with
        | some cur =>
          by_cases hle : w0.entries.length ≤ wcountOf all cur
          · rw [removeDupLoop_keep all idx k0 w0 rest cur h0 hcur hle]
            exact List.mem_cons_of_mem k0 (ih idx k w hmem2 hlen)
          · rw [removeDupLoop_replace all idx k0 w0 rest cur h0 hcur hle]
            exact List.mem_cons_of_mem cur (ih (aset idx (firstAddr w0) k0) k w hmem2 hlen)
        | none =>
          rw [removeDupLoop_new all idx k0 w0 rest h0 hcur]
          exact ih (aset idx (firstAddr w0) k0) k w hmem2 hlen

/-- A current index holder either ends up marked or is still the holder
of its address when the loop finishes. -/
theorem loop_holder_fate (all : Wallets) :
    ∀ (ps : Wallets) (idx : AddrIndex) (a id : String),
      aget idx a = some id →
      id ∈ (removeDupLoop all idx ps).1 ∨ aget (removeDupLoop all idx ps).2 a = some id := by
  intro ps
  induction ps with
  | nil => intro idx a id h; right; exact h
  | cons p rest ih =>
    obtain ⟨k0, w0⟩ := p
    intro idx a id hidx
    by_cases h0 : w0.entries.length = 0
    · rw [removeDupLoop_empty all idx k0 w0 rest h0]
      rcases ih idx a id hidx with hin | hget
      · exact Or.inl (List.mem_cons_of_mem k0 hin)
      · exact Or.inr hget
    · cases hcur : aget idx (firstAddr w0) with
      | some cur =>
        by_cases hle : w0.entries.length ≤ wcountOf all cur
        · rw [removeDupLoop_keep all idx k0 w0 rest cur h0 hcur hle]
          rcases ih idx a id hidx with hin | hget
          · exact Or.inl (List.mem_cons_of_mem k0 hin)
          · exact Or.inr hget
        · rw [removeDupLoop_replace all idx k0 w0 rest cur h0 hcur hle]
          by_cases ha : a = firstAddr w0
          · have hcurid : cur = id := by
              rw [← ha] at hcur
              rw [hidx] at hcur
              injection hcur with h
              exact h.symm
            subst hcurid
            exact Or.inl (List.mem_cons_self cur _)
          · have hidx2 : aget (aset idx (firstAddr w0) k0) a = some id := by
              rw [aget_aset_ne (firstAddr w0) k0 a ha idx, hidx]
            rcases ih (aset idx (firstAddr w0) k0) a id hidx2 with hin | hget
            · exact Or.inl (List.mem_cons_of_mem cur hin)
            · exact Or.inr hget
      | none =>
        rw [removeDupLoop_new all idx k0 w0 rest h0 hcur]
        have ha : a ≠ firstAddr w0 := by
          intro h
          rw [← h] at hcur
          rw [hidx] at hcur
          exact Option.noConfusion hcur
        have hidx2 : aget (aset idx (firstAddr w0) k0) a = some id := by
          rw [aget_aset_ne (firstAddr w0) k0 a ha idx, hidx]
        exact ih (aset idx (firstAddr w0) k0) a id hidx2

/-- Every nonempty processed wallet ends up marked or as the final
holder of its first address. -/
theorem loop_mark_or_hold (all : Wallets) :
    ∀ (ps : Wallets) (idx : AddrIndex) (k : String) (w : Wallet),
      (k, w) ∈ ps → ¬ w.entries.length = 0 →
      k ∈ (removeDupLoop all idx ps).1
        ∨ aget (removeDupLoop all idx ps).2 (firstAddr w) = some k := by
  intro ps
  induction ps with
  | nil => intro idx k w h _; cases h
  | cons p rest ih =>
    obtain ⟨k0, w0⟩ := p
    intro idx k w hmem hlen
    rcases List.mem_cons.mp hmem with heq | hmem2
    · rw [Prod.mk.injEq] at heq
      obtain ⟨h1, h2⟩ := heq
      subst h1
      subst h2
      cases hcur : aget idx (firstAddr w) with
      | some cur =>
        by_cases hle : w.entries.length ≤ wcountOf all cur
        · rw [removeDupLoop_keep all idx k w rest cur hlen hcur hle]
          exact Or.inl (List.mem_cons_self k _)
        · rw [removeDupLoop_replace all idx k w rest cur hlen hcur hle]
          have hset : aget (aset idx (firstAddr w) k) (firstAddr w) = some k :=
            aget_aset_self (firstAddr w) k idx
          rcases loop_holder_fate all rest (aset idx (firstAddr w) k) (firstAddr w) k hset with
            hin | hget
          · exact Or.inl (List.mem_cons_of_mem cur hin)
          · exact Or.inr hget
      | none =>
        rw [removeDupLoop_new all idx k w rest hlen hcur]
        have hset : aget (aset idx (firstAddr w) k) (firstAddr w) = some k :=
          aget_aset_self (firstAddr w) k idx
        exact loop_holder_fate all rest (aset idx (firstAddr w) k) (firstAddr w) k hset
    · by_cases h0 : w0.entries.length = 0
      · rw [removeDupLoop_empty all idx k0 w0 rest h0]
        rcases ih idx k w hmem2 hlen with hin | hget
        · exact Or.inl (List.mem_cons_of_mem k0 hin)
        · exact Or.inr hget
      · cases hcur : aget idx (firstAddr w0) with
        | some cur =>
          by_cases hle : w0.entries.length ≤ wcountOf all cur
          · rw [removeDupLoop_keep all idx k0 w0 rest cur h0 hcur hle]
            rcases ih idx k w hmem2 hlen with hin | hget
            · exact Or.inl (List.mem_cons_of_mem k0 hin)
            · exact Or.inr hget
          · rw [removeDupLoop_replace all idx k0 w0 rest cur h0 hcur hle]
            rcases ih (aset idx (firstAddr w0) k0) k w hmem2 hlen with hin | hget
            · exact Or.inl (List.mem_cons_of_mem cur hin)
            · exact Or.inr hget
        | none =>
          rw [removeDupLoop_new all idx k0 w0 rest h0 hcur]
          exact ih (aset idx (firstAddr w0) k0) k w hmem2 hlen

/-- Characterization of a final index holder of the marking loop: it is
either the unchanged initial holder, dominating every processed wallet
with its address, or a processed wallet that strictly beats every
earlier same-address wallet (and any initial holder) and is at least as
large as every later one. -/
theorem loop_holder_char (all : Wallets) :
    ∀ (ps : Wallets) (idx : AddrIndex),
      (∀ (k : String) (w : Wallet), (k, w) ∈ ps → Wallets.get all k = some w) →
      ∀ (a idf : String),
        aget (removeDupLoop all idx ps).2 a = some idf →
        (aget idx a = some idf ∧
          ∀ (k : String) (w : Wallet), (k, w) ∈ ps → firstAddr w = a →
            ¬ w.entries.length = 0 → w.entries.length ≤ wcountOf all idf)
        ∨ (∃ pre w1 post,
            ps = pre ++ (idf, w1) :: post ∧
            firstAddr w1 = a ∧
            ¬ w1.entries.length = 0 ∧
            Wallets.get all idf = some w1 ∧
            (∀ (k : String) (w : Wallet), (k, w) ∈ pre → firstAddr w = a →
              ¬ w.entries.length = 0 → w.entries.length < w1.entries.length) ∧
            (∀ (k : String) (w : Wallet), (k, w) ∈ post → firstAddr w = a →
              ¬ w.entries.length = 0 → w.entries.length ≤ w1.entries.length) ∧
            (∀ c, aget idx a = some c → wcountOf all c < w1.entries.length)) := by
  intro ps
  induction ps with
  | nil =>
    intro idx hsub a idf hfin
    left
    exact ⟨hfin, fun k w h => absurd h (List.not_mem_nil _)⟩
  | cons p rest ih =>
    obtain ⟨k0, w0⟩ := p
    intro idx hsub a idf hfin
    have hsub' : ∀ (k : String) (w : Wallet), (k, w) ∈ rest → Wallets.get all k = some w :=
      fun k w h => hsub k w (List.mem_cons_of_mem _ h)
    have hget0 : Wallets.get all k0 = some w0 := hsub k0 w0 (List.mem_cons_self _ _)
    have hcount0 : wcountOf all k0 = w0.entries.length := by
      unfold wcountOf
      rw [hget0]
    by_cases h0 : w0.entries.length = 0
    · -- empty head: marked, index untouched
      rw [removeDupLoop_empty all idx k0 w0 rest h0] at hfin
      rcases ih idx hsub' a idf hfin with ⟨hidx, dom⟩ |
        ⟨pre, w1, post, hps, hfa1, h1len, hget1, hpre, hpost, hinc⟩
      · left
        refine ⟨hidx, ?_⟩
        intro k w hmem hfa hlen
        rcases List.mem_cons.mp hmem with heq | hmem2
        · exfalso
          rw [Prod.mk.injEq] at heq
          rw [heq.2] at hlen
          exact hlen h0
        · exact dom k w hmem2 hfa hlen
      · right
        refine ⟨(k0, w0) :: pre, w1, post, by rw [hps]; rfl, hfa1, h1len, hget1, ?_, hpost, hinc⟩
        intro k w hmem hfa hlen
        rcases List.mem_cons.mp hmem with heq | hmem2
        · exfalso
          rw [Prod.mk.injEq] at heq
          rw [heq.2] at hlen
          exact hlen h0
        · exact hpre k w hmem2 hfa hlen
    · cases hcur : aget idx (firstAddr w0) with
      | some cur =>
        by_cases hle : w0.entries.length ≤ wcountOf all cur
        · -- collision, incumbent kept: head is marked, index untouched
          rw [removeDupLoop_keep all idx k0 w0 rest cur h0 hcur hle] at hfin
          rcases ih idx hsub' a idf hfin with ⟨hidx, dom⟩ |
            ⟨pre, w1, post, hps, hfa1, h1len, hget1, hpre, hpost, hinc⟩
          · left
            refine ⟨hidx, ?_⟩
            intro k w hmem hfa hlen
            rcases List.mem_cons.mp hmem with heq | hmem2
            · rw [Prod.mk.injEq] at heq
              obtain ⟨hk, hw⟩ := heq
              subst hw
              rw [hfa] at hcur
              rw [hidx] at hcur
              injection hcur with h
              rw [h]
              exact hle
            · exact dom k w hmem2 hfa hlen
          · right
            refine ⟨(k0, w0) :: pre, w1, post, by rw [hps]; rfl, hfa1, h1len, hget1, ?_,
              hpost, hinc⟩
            intro k w hmem hfa hlen
            rcases List.mem_cons.mp hmem with heq | hmem2
            · rw [Prod.mk.injEq] at heq
              obtain ⟨hk, hw⟩ := heq
              subst hw
              have hcura : aget idx a = some cur := by
                rw [← hfa]
                exact hcur
              exact Nat.lt_of_le_of_lt hle (hinc cur hcura)
            · exact hpre k w hmem2 hfa hlen
        · -- collision, incumbent replaced: head becomes the holder
          rw [removeDupLoop_replace all idx k0 w0 rest cur h0 hcur hle] at hfin
          have hgt : wcountOf all cur < w0.entries.length := Nat.not_le.mp hle
          rcases ih (aset idx (firstAddr w0) k0) hsub' a idf hfin with ⟨hidx2, dom⟩ |
            ⟨pre, w1, post, hps, hfa1, h1len, hget1, hpre, hpost, hinc⟩
          · by_cases ha : a = firstAddr w0
            · have hk0 : idf = k0 := by
                rw [ha] at hidx2
                rw [aget_aset_self (firstAddr w0) k0 idx] at hidx2
                injection hidx2 with h
                exact h.symm
              subst hk0
              right
              refine ⟨[], w0, rest, rfl, ha.symm, h0, hget0,
                fun k w h => absurd h (List.not_mem_nil _), ?_, ?_⟩
              · intro k w hm hf hl
                have hd := dom k w hm hf hl
                rw [hcount0] at hd
                exact hd
              · intro c hc
                rw [ha] at hc
                rw [hcur] at hc
                injection hc with h
                rw [← h]
                exact hgt
            · left
              have hidxa : aget idx a = some idf := by
                rw [aget_aset_ne (firstAddr w0) k0 a ha idx] at hidx2
                exact hidx2
              refine ⟨hidxa, ?_⟩
              intro k w hmem hfa hlen
              rcases List.mem_cons.mp hmem with heq | hmem2
              · exfalso
                apply ha
                rw [Prod.mk.injEq] at heq
                rw [← hfa, heq.2]
              · exact dom k w hmem2 hfa hlen
          · right
            refine ⟨(k0, w0) :: pre, w1, post, by rw [hps]; rfl, hfa1, h1len, hget1, ?_,
              hpost, ?_⟩
            · intro k w hmem hfa hlen
              rcases List.mem_cons.mp hmem with heq | hmem2
              · rw [Prod.mk.injEq] at heq
                obtain ⟨hk, hw⟩ := heq
                subst hw
                have hsetk : aget (aset idx (firstAddr w) k0) a = some k0 := by
                  rw [← hfa]
                  exact aget_aset_self (firstAddr w) k0 idx
                have hlt := hinc k0 hsetk
                rw [hcount0] at hlt
                exact hlt
              · exact hpre k w hmem2 hfa hlen
            · intro c hc
              by_cases ha : a = firstAddr w0
              · have hcc : cur = c := by
                  rw [ha] at hc
                  rw [hcur] at hc
                  exact Option.some.inj hc
                have hsetk : aget (aset idx (firstAddr w0) k0) a = some k0 := by
                  rw [ha]
                  exact aget_aset_self (firstAddr w0) k0 idx
                have hlt := hinc k0 hsetk
                rw [hcount0] at hlt
                rw [← hcc]
                exact Nat.lt_trans hgt hlt
              · have hc2 : aget (aset idx (firstAddr w0) k0) a = some c := by
                  rw [aget_aset_ne (firstAddr w0) k0 a ha idx]
                  exact hc
                exact hinc c hc2
      | none =>
        -- fresh address: head becomes the holder
        rw [removeDupLoop_new all idx k0 w0 rest h0 hcur] at hfin
        rcases ih (aset idx (firstAddr w0) k0) hsub' a idf hfin with ⟨hidx2, dom⟩ |
          ⟨pre, w1, post, hps, hfa1, h1len, hget1, hpre, hpost, hinc⟩
        · by_cases ha : a = firstAddr w0
          · have hk0 : idf = k0 := by
              rw [ha] at hidx2
              rw [aget_aset_self (firstAddr w0) k0 idx] at hidx2
              injection hidx2 with h
              exact h.symm
            subst hk0
            right
            refine ⟨[], w0, rest, rfl, ha.symm, h0, hget0,
              fun k w h => absurd h (List.not_mem_nil _), ?_, ?_⟩
            · intro k w hm hf hl
              have hd := dom k w hm hf hl
              rw [hcount0] at hd
              exact hd
            · intro c hc
              exfalso
              rw [ha] at hc
              rw [hcur] at hc
              exact Option.noConfusion hc
          · left
            have hidxa : aget idx a = some idf := by
              rw [aget_aset_ne (firstAddr w0) k0 a ha idx] at hidx2
              exact hidx2
            refine ⟨hidxa, ?_⟩
            intro k w hmem hfa hlen
            rcases List.mem_cons.mp hmem with heq | hmem2
            · exfalso
              apply ha
              rw [Prod.mk.injEq] at heq
              rw [← hfa, heq.2]
            · exact dom k w hmem2 hfa hlen
        · right
          refine ⟨(k0, w0) :: pre, w1, post, by rw [hps]; rfl, hfa1, h1len, hget1, ?_,
            hpost, ?_⟩
          · intro k w hmem hfa hlen
            rcases List.mem_cons.mp hmem with heq | hmem2
            · rw [Prod.mk.injEq] at heq
              obtain ⟨hk, hw⟩ := heq
              subst hw
              have hsetk : aget (aset idx (firstAddr w) k0) a = some k0 := by
                rw [← hfa]
                exact aget_aset_self (firstAddr w) k0 idx
              have hlt := hinc k0 hsetk
              rw [hcount0] at hlt
              exact hlt
            · exact hpre k w hmem2 hfa hlen
          · intro c hc
            by_cases ha : a = firstAddr w0
            · exfalso
              rw [ha] at hc
              rw [hcur] at hc
              exact Option.noConfusion hc
            · have hc2 : aget (aset idx (firstAddr w0) k0) a = some c := by
                rw [aget_aset_ne (firstAddr w0) k0 a ha idx]
                exact hc
              exact hinc c hc2

/-- In a list with pairwise distinct keys, a decomposition around a
given key is unique. -/
theorem decomp_unique :
    ∀ (pre : Wallets) (k : String) (w : Wallet) (post pre2 : Wallets) (w2 : Wallet)
      (post2 : Wallets),
      keysNodup (pre ++ (k, w) :: post) →
      pre ++ (k, w) :: post = pre2 ++ (k, w2) :: post2 →
      pre = pre2 ∧ w = w2 ∧ post = post2 := by
  intro pre
  induction pre with
  | nil =>
    intro k w post pre2 w2 post2 hnd heq
    cases pre2 with
    | nil =>
      rw [List.nil_append, List.nil_append] at heq
      injection heq with h1 h2
      rw [Prod.mk.injEq] at h1
      exact ⟨rfl, h1.2, h2⟩
    | cons q pre2' =>
      rw [List.nil_append, List.cons_append] at heq
      injection heq with h1 h2
      exfalso
      rw [List.nil_append] at hnd
      simp only [keysNodup, List.map_cons, List.nodup_cons] at hnd
      apply hnd.1
      rw [h2, List.map_append, List.map_cons]
      exact List.mem_append.mpr (Or.inr (List.mem_cons_self k _))
  | cons q pre' ih =>
    intro k w post pre2 w2 post2 hnd heq
    cases pre2 with
    | nil =>
      rw [List.cons_append, List.nil_append] at heq
      injection heq with h1 h2
      exfalso
      rw [List.cons_append] at hnd
      simp only [keysNodup, List.map_cons, List.nodup_cons] at hnd
      apply hnd.1
      have hq : q.1 = k := by rw [h1]
      rw [hq, List.map_append, List.map_cons]
      exact List.mem_append.mpr (Or.inr (List.mem_cons_self k _))
    | cons q2 pre2' =>
      rw [List.cons_append, List.cons_append] at heq
      injection heq with h1 h2
      subst h1
      rw [List.cons_append] at hnd
      simp only [keysNodup, List.map_cons, List.nodup_cons] at hnd
      obtain ⟨e1, e2, e3⟩ := ih k w post pre2' w2 post2 hnd.2 h2
      rw [e1]
      exact ⟨rfl, e2, e3⟩

/-- C4 amended: the Deduplication Pass removes every zero-entry wallet;
each survivor comes from the input, has maximal entry count among input
wallets sharing its first address (so in any pair sharing a first
address the strictly smaller one never survives), strictly beats every
same-address nonempty wallet processed before it (ties favor the first
processed), has a first address distinct from every other survivor's,
and the rebuilt index maps each survivor's first address to exactly its
id. -/
theorem dedup_survivor_characterization (serv : Service) (wlts : Wallets)
    (hnd : keysNodup wlts) (hidx : serv.firstAddrIDMap = []) :
    (∀ (k : String) (w : Wallet), (k, w) ∈ (removeDup serv wlts).2 →
       ¬ w.entries.length = 0) ∧
    (∀ (k : String) (w : Wallet), (k, w) ∈ (removeDup serv wlts).2 → (k, w) ∈ wlts) ∧
    (∀ (k : String) (w : Wallet), (k, w) ∈ (removeDup serv wlts).2 →
       ∀ (k2 : String) (w2 : Wallet), (k2, w2) ∈ wlts → firstAddr w2 = firstAddr w →
         w2.entries.length ≤ w.entries.length) ∧
    (∀ (pre : Wallets) (k1 : String) (w1 : Wallet) (mid : Wallets) (k2 : String)
       (w2 : Wallet) (post : Wallets),
       wlts = pre ++ (k1, w1) :: mid ++ (k2, w2) :: post →
       ¬ w1.entries.length = 0 → firstAddr w1 = firstAddr w2 →
       (k2, w2) ∈ (removeDup serv wlts).2 →
       w1.entries.length < w2.entries.length) ∧
    (∀ (k : String) (w : Wallet), (k, w) ∈ (removeDup serv wlts).2 →
       aget (removeDup serv wlts).1.firstAddrIDMap (firstAddr w) = some k) ∧
    (∀ (k1 : String) (w1 : Wallet) (k2 : String) (w2 : Wallet),
       (k1, w1) ∈ (removeDup serv wlts).2 → (k2, w2) ∈ (removeDup serv wlts).2 →
       firstAddr w1 = firstAddr w2 → k1 = k2 ∧ w1 = w2) := by
  have hsub : ∀ (k : String) (w : Wallet), (k, w) ∈ wlts → Wallets.get wlts k = some w :=
    fun k w h => get_of_mem_nodup wlts hnd k w h
  have hmemS : ∀ (k : String) (w : Wallet),
      (k, w) ∈ (removeDup serv wlts).2 ↔
        (k, w) ∈ wlts ∧ k ∉ (removeDupLoop wlts serv.firstAddrIDMap wlts).1 := by
    intro k w
    exact mem_foldl_removeW k w (removeDupLoop wlts serv.firstAddrIDMap wlts).1 wlts
  have hne : ∀ (k : String) (w : Wallet), (k, w) ∈ (removeDup serv wlts).2 →
      ¬ w.entries.length = 0 := by
    intro k w hmem hz
    obtain ⟨hin, hnot⟩ := (hmemS k w).mp hmem
    exact hnot (loop_marks_empty wlts wlts serv.firstAddrIDMap k w hin hz)
  have hhold : ∀ (k : String) (w : Wallet), (k, w) ∈ (removeDup serv wlts).2 →
      aget (removeDupLoop wlts serv.firstAddrIDMap wlts).2 (firstAddr w) = some k := by
    intro k w hmem
    obtain ⟨hin, hnot⟩ := (hmemS k w).mp hmem
    rcases loop_mark_or_hold wlts wlts serv.firstAddrIDMap k w hin (hne k w hmem) with
      hrm | hget
    · exact absurd hrm hnot
    · exact hget
  have hchar : ∀ (a idf : String),
      aget (removeDupLoop wlts serv.firstAddrIDMap wlts).2 a = some idf →
      ∃ pre w1 post,
        wlts = pre ++ (idf, w1) :: post ∧ firstAddr w1 = a ∧ ¬ w1.entries.length = 0 ∧
        Wallets.get wlts idf = some w1 ∧
        (∀ (k : String) (w : Wallet), (k, w) ∈ pre → firstAddr w = a →
          ¬ w.entries.length = 0 → w.entries.length < w1.entries.length) ∧
        (∀ (k : String) (w : Wallet), (k, w) ∈ post → firstAddr w = a →
          ¬ w.entries.length = 0 → w.entries.length ≤ w1.entries.length) := by
    intro a idf hfin
    rcases loop_holder_char wlts wlts serv.firstAddrIDMap hsub a idf hfin with ⟨hl, _⟩ |
      ⟨pre, w1, post, hps, hfa, hlen, hget, hpre, hpost, _⟩
    · rw [hidx] at hl
      exact absurd hl (fun h => Option.noConfusion h)
    · exact ⟨pre, w1, post, hps, hfa, hlen, hget, hpre, hpost⟩
  have hmax : ∀ (k : String) (w : Wallet), (k, w) ∈ (removeDup serv wlts).2 →
      ∀ (k2 : String) (w2 : Wallet), (k2, w2) ∈ wlts → firstAddr w2 = firstAddr w →
        w2.entries.length ≤ w.entries.length := by
    intro k w hmem k2 w2 hmem2 hfa
    obtain ⟨pre, w1, post, hps, hfa1, h1len, hget1, hpre, hpost⟩ :=
      hchar (firstAddr w) k (hhold k w hmem)
    have hw1 : w1 = w := by
      have h1 := hsub k w ((hmemS k w).mp hmem).1
      rw [hget1] at h1
      exact Option.some.inj h1
    subst hw1
    by_cases hz : w2.entries.length = 0
    · rw [hz]
      exact Nat.zero_le _
    · rw [hps] at hmem2
      rcases List.mem_append.mp hmem2 with hpre2 | hrest
      · exact Nat.le_of_lt (hpre k2 w2 hpre2 hfa hz)
      · rcases List.mem_cons.mp hrest with heq | hpost2
        · rw [Prod.mk.injEq] at heq
          rw [heq.2]
        · exact hpost k2 w2 hpost2 hfa hz
  have htie : ∀ (pre : Wallets) (k1 : String) (w1 : Wallet) (mid : Wallets) (k2 : String)
      (w2 : Wallet) (post : Wallets),
      wlts = pre ++ (k1, w1) :: mid ++ (k2, w2) :: post →
      ¬ w1.entries.length = 0 → firstAddr w1 = firstAddr w2 →
      (k2, w2) ∈ (removeDup serv wlts).2 →
      w1.entries.length < w2.entries.length := by
    intro pre k1 w1 mid k2 w2 post hdec h1len hfa hmem
    obtain ⟨preM, wM, postM, hpsM, hfaM, hMlen, hgetM, hpreM, hpostM⟩ :=
      hchar (firstAddr w2) k2 (hhold k2 w2 hmem)
    have hwM : wM = w2 := by
      have h1 := hsub k2 w2 ((hmemS k2 w2).mp hmem).1
      rw [hgetM] at h1
      exact Option.some.inj h1
    subst hwM
    have hdec2 : (pre ++ (k1, w1) :: mid) ++ (k2, wM) :: post
        = preM ++ (k2, wM) :: postM := by
      rw [← hpsM, hdec]
    have hndW : keysNodup ((pre ++ (k1, w1) :: mid) ++ (k2, wM) :: post) := by
      have heqw : (pre ++ (k1, w1) :: mid) ++ (k2, wM) :: post = wlts := by
        rw [hdec]
      rw [heqw]
      exact hnd
    obtain ⟨hpreE, hwE, hpostE⟩ :=
      decomp_unique (pre ++ (k1, w1) :: mid) k2 wM post preM wM postM hndW hdec2
    have hmem1 : (k1, w1) ∈ preM := by
      rw [← hpreE]
      exact List.mem_append.mpr (Or.inr (List.mem_cons_self _ _))
    exact hpreM k1 w1 hmem1 hfa h1len
  have hdist : ∀ (k1 : String) (w1 : Wallet) (k2 : String) (w2 : Wallet),
      (k1, w1) ∈ (removeDup serv wlts).2 → (k2, w2) ∈ (removeDup serv wlts).2 →
      firstAddr w1 = firstAddr w2 → k1 = k2 ∧ w1 = w2 := by
    intro k1 w1 k2 w2 h1 h2 hfa
    have ha1 := hhold k1 w1 h1
    have ha2 := hhold k2 w2 h2
    rw [hfa] at ha1
    rw [ha2] at ha1
    have hk : k2 = k1 := Option.some.inj ha1
    subst hk
    have g1 := hsub k2 w1 ((hmemS k2 w1).mp h1).1
    have g2 := hsub k2 w2 ((hmemS k2 w2).mp h2).1
    rw [g1] at g2
    exact ⟨rfl, Option.some.inj g2⟩
  refine ⟨hne, fun k w h => ((hmemS k w).mp h).1, hmax, htie, ?_, hdist⟩
  intro k w hmem
  exact hhold k w hmem

/-- C4 counterexample: three wallets share first address "a" with entry
counts 5, 4, 3 in processing order; only the 5-entry wallet survives,
so although "B" has strictly more entries than "C" in the pair they
form, "B" does not survive. -/
theorem dedup_pairwise_claim_fails :
    firstAddr (egDupWallet "B" 4) = firstAddr (egDupWallet "C" 3) ∧
    (egDupWallet "C" 3).entries.length < (egDupWallet "B" 4).entries.length ∧
    ("B", egDupWallet "B" 4) ∈ egDupWallets ∧
    ("C", egDupWallet "C" 3) ∈ egDupWallets ∧
    (removeDup egServiceEmpty egDupWallets).2 = [("A", egDupWallet "A" 5)] := by decide

/-- Witness for the amended C4 at the concrete three-wallet input. -/
theorem dedup_survivor_characterization_witness :
    keysNodup egDupWallets ∧
    egServiceEmpty.firstAddrIDMap = [] ∧
    (∀ (k : String) (w : Wallet), (k, w) ∈ (removeDup egServiceEmpty egDupWallets).2 →
      ¬ w.entries.length = 0) ∧
    (∀ (k : String) (w : Wallet), (k, w) ∈ (removeDup egServiceEmpty egDupWallets).2 →
      aget (removeDup egServiceEmpty egDupWallets).1.firstAddrIDMap (firstAddr w) = some k) :=
  ⟨by decide, rfl,
   (dedup_survivor_characterization egServiceEmpty egDupWallets (by decide) rfl).1,
   (dedup_survivor_characterization egServiceEmpty egDupWallets (by decide) rfl).2.2.2.2.1⟩
